import Mathlib

/-!
# Has-many relationship declarations (the file `has-many.js` of the model package)

A shallow embedding of the `hasMany(type, options)` declaration function and of the
computed accessor (`get` / `set`) it returns, followed by the properties checked
against it.

JavaScript values are embedded as the inductive type `JSValue`; the owning record's
internal model (`this._internalModel`) is an interface whose two methods are taken as
parameters, since its implementation lives outside this file. Every call made on the
internal model is appended to a trace kept next to the record state, so that
"called once" and "never called" are statements about that trace.

The many array, the store and the resolver that serve a field access live outside
`has-many.js`; they are modelled from the specification and marked as such. The file
ends with the feature flags computed by `getFeatures` in `features.js`.
-/

namespace EmberData

/-! ## JavaScript values -/

/-- The JavaScript values a caller can hand to `hasMany`. Numbers are represented by
integers (zero is the falsy number). -/
inductive JSValue where
  | undefined
  | null
  | boolean (b : Bool)
  | number (n : Int)
  | bigint (n : Int)
  | string (s : String)
  | symbol (description : String)
  | function (name : String)
  | object (props : List (String × JSValue))
  | array (items : List JSValue)

/-- The `typeof` operator. -/
def typeof : JSValue → String
  | .undefined => "undefined"
  | .null => "object"
  | .boolean _ => "boolean"
  | .number _ => "number"
  | .bigint _ => "bigint"
  | .string _ => "string"
  | .symbol _ => "symbol"
  | .function _ => "function"
  | .object _ => "object"
  | .array _ => "object"

/-- Truthiness of a value (`ToBoolean`). -/
def JSValue.truthy : JSValue → Bool
  | .undefined => false
  | .null => false
  | .boolean b => b
  | .number n => n != 0
  | .bigint n => n != 0
  | .string s => s != ""
  | .symbol _ => true
  | .function _ => true
  | .object _ => true
  | .array _ => true

/-- The `a || b` operator. -/
def JSValue.or (a b : JSValue) : JSValue :=
  if a.truthy then a else b

/-- Look a property name up in a property list. -/
def lookupProp (name : String) : List (String × JSValue) → Option JSValue
  | [] => none
  | (k, v) :: rest => if k = name then some v else lookupProp name rest

/-- Property read `v.name` on a plain object; a missing property reads as `undefined`. -/
def JSValue.getProp (v : JSValue) (name : String) : JSValue :=
  match v with
  | .object props => (lookupProp name props).getD .undefined
  | _ => .undefined

/-- The method `Array.prototype.indexOf` on an array of strings: the first position of
`key`, or `-1`. -/
def indexOf : List String → String → Int
  | [], _ => -1
  | x :: xs, key =>
    if x = key then 0
    else if indexOf xs key = -1 then -1 else indexOf xs key + 1

/-! ## The declaration function -/

/-- The metadata object `meta` built by `hasMany`. -/
structure RelationshipMeta where
  type : JSValue
  options : JSValue
  isRelationship : Bool
  kind : String
  name : String
  key : JSValue

/-- The computed property returned by `hasMany`: the `computed` accessor pair with `meta` attached.
The two accessor functions capture nothing from the call, so the descriptor is
determined by its metadata; they are `Descriptor.get` and `Descriptor.set` below. -/
structure Descriptor where
  meta : RelationshipMeta

/-- The function `assert(description, test)` of `@ember/debug`: in a debug build it
throws when `test` is false; in a production build the call does nothing. -/
def assert (DEBUG : Bool) (description : String) (test : Bool) : Except String Unit :=
  if DEBUG && !test then .error ("Assertion Failed: " ++ description) else .ok ()

/-- The message passed to `assert` by `hasMany`. -/
def invalidTypeMessage (inspected : String) : String :=
  "The first argument to hasMany must be a string representing a model type key, not an instance of "
    ++ inspected
    ++ ". E.g., to define a relation to the Comment model, use hasMany(\x27comment\x27)"

/-- The function `hasMany(type, options)`. An argument that is not passed is `undefined`.
`normalizeModelName` (from `@ember-data/store`) and `inspect` (from `@ember/debug`) are
imported by the source file and taken as parameters here; `DEBUG` tells whether the
build is a debug build, the only kind in which `assert` is active. -/
def hasMany (DEBUG : Bool) (normalizeModelName : String → String)
    (inspect : JSValue → String) (type options : JSValue) : Except String Descriptor := do
  let (type, options) :=
    if typeof type = "object" then (JSValue.undefined, type) else (type, options)
  assert DEBUG (invalidTypeMessage (inspect type))
    (typeof type = "string" || typeof type = "undefined")
  let options := options.or (.object [])
  let type :=
    match type with
    | .string s => JSValue.string (normalizeModelName s)
    | t => t
  pure
    { meta :=
        { type := type
          options := options
          isRelationship := true
          kind := "hasMany"
          name := "Has Many"
          key := .null } }

/-! ## The accessor -/

/-- One call made on the owning record's internal model. -/
inductive Call (ρ : Type) where
  | getHasMany (key : String)
  | setDirtyHasMany (key : String) (records : ρ)

/-- The two methods of `this._internalModel` used by the accessor. Each may throw and
each may change the internal state `σ`; `ρ` is the type of the value handed to `set`
and `α` the type of what `getHasMany` returns. -/
structure InternalModel (σ ρ α : Type) where
  getHasMany : String → σ → Except String α × σ
  setDirtyHasMany : String → ρ → σ → Except String Unit × σ

/-- The receiver of the accessor: the name its constructor prints as
(`this.constructor.toString()`), the state behind `this._internalModel`, and the trace
of the calls made on the internal model so far. -/
structure Record (σ ρ : Type) where
  constructorName : String
  state : σ
  calls : List (Call ρ)

/-- The property names the accessor refuses in a debug build. -/
def reservedNames : List String :=
  ["_internalModel", "recordData", "currentState"]

/-- The message of the error thrown for a reserved property name. -/
def reservedMessage (key constructorName : String) : String :=
  "\x27" ++ key
    ++ "\x27 is a reserved property name on instances of classes extending Model. Please choose a different property name for your hasMany on "
    ++ constructorName

/-- The accessor `get(key)`. `DEBUG` is the build flag imported from `@glimmer/env`. -/
def Descriptor.get {σ ρ α : Type} (DEBUG : Bool) (im : InternalModel σ ρ α)
    (key : String) (record : Record σ ρ) : Except String α × Record σ ρ :=
  if DEBUG && indexOf reservedNames key != -1 then
    (.error (reservedMessage key record.constructorName), record)
  else
    let r := im.getHasMany key record.state
    (r.1, { record with state := r.2, calls := record.calls ++ [.getHasMany key] })

/-- The accessor `set(key, records)`. -/
def Descriptor.set {σ ρ α : Type} (DEBUG : Bool) (im : InternalModel σ ρ α)
    (key : String) (records : ρ) (record : Record σ ρ) : Except String α × Record σ ρ :=
  if DEBUG && indexOf reservedNames key != -1 then
    (.error (reservedMessage key record.constructorName), record)
  else
    let w := im.setDirtyHasMany key records record.state
    let calls := record.calls ++ [.setDirtyHasMany key records]
    match w.1 with
    | .error e => (.error e, { record with state := w.2, calls := calls })
    | .ok _ =>
      let r := im.getHasMany key w.2
      (r.1, { record with state := r.2, calls := calls ++ [.getHasMany key] })

/-- A small internal model used to evaluate the accessor on explicit inputs: the state
is a table from field name to the ids of its members, `setDirtyHasMany` replaces the
entry of a field and `getHasMany` reads it. -/
def tableModel : InternalModel (List (String × List Nat)) (List Nat) (List Nat) where
  getHasMany key s := (.ok ((s.lookup key).getD []), s)
  setDirtyHasMany key records s := (.ok (), (key, records) :: s.filter (fun e => e.1 != key))

/-- The descriptor that `hasMany("comment", \x7binverse: "post"\x7d)` evaluates to when the
normalizer leaves `comment` as it is; used to evaluate the declaration on explicit
inputs. -/
def commentsDescriptor : Descriptor :=
  { meta :=
      { type := .string "comment"
        options := .object [("inverse", .string "post")]
        isRelationship := true
        kind := "hasMany"
        name := "Has Many"
        key := .null } }

/-- A normalizer used to evaluate the declaration on explicit inputs: it lower-cases the
type key. -/
def lowerCase (s : String) : String :=
  String.mk (s.toList.map Char.toLower)

/-- The descriptor that `hasMany("Comment")`, called without options, evaluates to under
the normalizer `lowerCase`. -/
def bareCommentsDescriptor : Descriptor :=
  { meta :=
      { type := .string "comment"
        options := .object []
        isRelationship := true
        kind := "hasMany"
        name := "Has Many"
        key := .null } }

/-! ## Lazy binding of the metadata key -/

/-- Modelled from the spec: the step that binds `meta.key` is performed by the model
class when the computed property is first used and is not part of `has-many.js`. The
spec describes it as "the field name, bound lazily on first access" and "once bound,
`key` is immutable for the lifetime of the declaration": an unbound (`null`) key takes
the field name, a bound key is kept. -/
def bindKey (fieldName : String) (m : RelationshipMeta) : RelationshipMeta :=
  match m.key with
  | .null => { m with key := .string fieldName }
  | _ => m

/-- One use of the accessor of a declared field. -/
inductive Access (ρ : Type) where
  | get (key : String)
  | set (key : String) (records : ρ)

/-- The field name an access is made with. -/
def Access.key {ρ : Type} : Access ρ → String
  | .get key => key
  | .set key _ => key

/-- A declared has-many field on a record: the descriptor returned by `hasMany` and
the record it is read from. -/
structure Field (σ ρ : Type) where
  descriptor : Descriptor
  record : Record σ ρ

/-- Modelled from the spec: how an access reaches the accessor is decided by the model
class, which is not among the source files embedded here. Following "bound lazily on
first access", the key is bound first (see `bindKey`), then the accessor function of
`has-many.js` runs on the record. The accessor functions themselves never touch the
metadata. -/
def Field.access {σ ρ α : Type} (DEBUG : Bool) (im : InternalModel σ ρ α)
    (f : Field σ ρ) (a : Access ρ) : Field σ ρ :=
  let descriptor : Descriptor := { meta := bindKey a.key f.descriptor.meta }
  match a with
  | .get key => { descriptor := descriptor, record := (Descriptor.get DEBUG im key f.record).2 }
  | .set key records =>
    { descriptor := descriptor, record := (Descriptor.set DEBUG im key records f.record).2 }

/-- A sequence of accesses, in order. -/
def Field.accessAll {σ ρ α : Type} (DEBUG : Bool) (im : InternalModel σ ρ α)
    (f : Field σ ρ) (accesses : List (Access ρ)) : Field σ ρ :=
  accesses.foldl (Field.access DEBUG im) f

/-! ## The many array -/

/-- The identity of a record: its type key and its id. -/
structure Identity where
  type : String
  id : String
  deriving DecidableEq

/-- A materialized record object: its identity and the reference of the object, so that
"the same object" is equality of `RecordObject`s. -/
structure RecordObject where
  identity : Identity
  ref : Nat
  deriving DecidableEq

/-- An element of a many array: a materialized record, or an identity marked unloaded. -/
inductive Member where
  | loaded (r : RecordObject)
  | unloaded (identity : Identity)
  deriving DecidableEq

/-- The identity of a member. -/
def Member.identity : Member → Identity
  | .loaded r => r.identity
  | .unloaded i => i

/-- Whether a member is a materialized record. -/
def Member.isLoaded : Member → Bool
  | .loaded _ => true
  | .unloaded _ => false

/-- The local record cache: the loaded records. -/
abbrev Store := List RecordObject

/-- Modelled from the spec: the identity-map lookup of the local cache, which is not
among the source files embedded here. It returns the loaded record with the given identity. -/
def peekRecord (store : Store) (i : Identity) : Option RecordObject :=
  store.find? (fun r => r.identity = i)

/-- Modelled from the spec: `isLoaded(typeKey, id)` of the identity-map collaborator,
which is not among the source files embedded here. -/
def isLoaded (store : Store) (i : Identity) : Bool :=
  (peekRecord store i).isSome

/-- Modelled from the spec: "materializing (or marking unloaded) any newly introduced
identity"; the store code is not among the source files embedded here. -/
def materialize (store : Store) (i : Identity) : Member :=
  match peekRecord store i with
  | some r => .loaded r
  | none => .unloaded i

/-- Modelled from the spec: the many array ("an ordered, mutation-tracked collection of
record references"), whose implementation is not among the source files embedded here. `key` is
the name of the relationship, `baseType` its declared type. -/
structure ManyArray where
  key : String
  baseType : String
  isPolymorphic : Bool
  elements : List Member

/-- Modelled from the spec: `reconcile(newOrderedIdList)`, whose implementation is not
among the source files embedded here: "compute the new sequence positionally from
`newOrderedIdList`, reusing existing materialized record objects where the identity
already exists in `elements`, materializing (or marking unloaded) any newly introduced
identity, and dropping any identity no longer present". -/
def ManyArray.reconcile (store : Store) (ma : ManyArray) (newOrderedIdList : List Identity) :
    ManyArray :=
  { ma with
    elements := newOrderedIdList.map fun i =>
      match ma.elements.find? (fun m => m.isLoaded && m.identity = i) with
      | some m => m
      | none => materialize store i }

/-- The many array after a sequence of pushed id lists, each reconciled in turn. -/
def ManyArray.pushAll (store : Store) (ma : ManyArray) (pushes : List (List Identity)) :
    ManyArray :=
  pushes.foldl (ManyArray.reconcile store) ma

/-- The declared subtype table: pairs of a subtype and its base type. -/
abbrev SubtypeTable := List (String × String)

/-- Modelled from the spec: the check of the polymorphic type guard, whose
implementation is not among the source files embedded here. "Monomorphic: candidate's concrete
type must equal the declared type exactly"; "Polymorphic: candidate's type must be the
declared base type or a declared subtype of it". -/
def typeGuard (subtypes : SubtypeTable) (declaredType : String) (isPolymorphic : Bool)
    (candidateType : String) : Bool :=
  if isPolymorphic then
    candidateType = declaredType || subtypes.contains (candidateType, declaredType)
  else
    candidateType = declaredType

/-- The error of a rejected add: it names the offending type and the relationship. -/
structure TypeMismatchError where
  offendingType : String
  relationship : String
  deriving DecidableEq

/-- Modelled from the spec: `add(record)` of the many array, whose implementation is
not among the source files embedded here: "guarded by PolymorphicTypeGuard before mutation; on
success, updates `elements`"; "`add` of a record already present is a no-op". Marking
the owner dirty and mirroring the change on the inverse field are left out. -/
def ManyArray.add (subtypes : SubtypeTable) (ma : ManyArray) (record : RecordObject) :
    Except TypeMismatchError Unit × ManyArray :=
  if typeGuard subtypes ma.baseType ma.isPolymorphic record.identity.type then
    if ma.elements.any (fun m => m.identity = record.identity) then (.ok (), ma)
    else (.ok (), { ma with elements := ma.elements ++ [.loaded record] })
  else
    (.error { offendingType := record.identity.type, relationship := ma.key }, ma)

/-- The invariant kept by pushes of loaded ids: every element of the many array is a
loaded record, and it is the object the store holds for its identity. -/
def StoreBacked (store : Store) (ma : ManyArray) : Prop :=
  ∀ m ∈ ma.elements, m.isLoaded = true ∧ materialize store m.identity = m

/-- The store of the ordering scenario: four loaded comments, ids 1 to 4. -/
def commentStore : Store :=
  [ { identity := { type := "comment", id := "1" }, ref := 101 },
    { identity := { type := "comment", id := "2" }, ref := 102 },
    { identity := { type := "comment", id := "3" }, ref := 103 },
    { identity := { type := "comment", id := "4" }, ref := 104 } ]

/-- The identity of the comment with the given id. -/
def comment (id : String) : Identity :=
  { type := "comment", id := id }

/-- A freshly created many array for the `comments` of a post. -/
def postComments : ManyArray :=
  { key := "comments", baseType := "comment", isPolymorphic := false, elements := [] }

/-! ## The relationship resolver -/

/-- Modelled from the spec: the per-(owner, field) resolver state, whose implementation
is not among the source files embedded here. `idsOrReferences` is the canonical
membership as last pushed (`none` when no id list is known), `link` the last known
fetch address, `populatedViaLink` whether "the relationship was last populated via a
link". -/
structure Relationship where
  owner : Identity
  key : String
  baseType : String
  isPolymorphic : Bool
  isAsync : Bool
  idsOrReferences : Option (List Identity)
  link : Option String
  populatedViaLink : Bool

/-- The ids a relationship refers to: its id list, or nothing when none is known. -/
def Relationship.referencedIds (rel : Relationship) : List Identity :=
  rel.idsOrReferences.getD []

/-- A request made through the adapter bridge. -/
inductive AdapterCall where
  | findMany (typeKey : String) (ids : List String)
  | findHasMany (owner : Identity) (link : String) (key : String)
  | find (typeKey : String) (id : String)
  deriving DecidableEq

/-- The error of a sync access with unloaded members: it names the field, the type of
the owner and the id of the owner. -/
structure UnloadedRecordsError where
  field : String
  ownerType : String
  ownerId : String
  deriving DecidableEq

/-- What an access to a has-many field comes to: the many array is available locally,
or adapter requests are issued for it, or the access fails. -/
inductive Resolution where
  | ready (manyArray : ManyArray)
  | fetch (calls : List AdapterCall)
  | failed (error : UnloadedRecordsError)

/-- The adapter requests an access issues. -/
def Resolution.adapterCalls : Resolution → List AdapterCall
  | .ready _ => []
  | .fetch calls => calls
  | .failed _ => []

/-- The many array of a relationship over the store's members for `ids`. -/
def Relationship.manyArrayOver (store : Store) (rel : Relationship) (ids : List Identity) :
    ManyArray :=
  { key := rel.key
    baseType := rel.baseType
    isPolymorphic := rel.isPolymorphic
    elements := ids.map (materialize store) }

/-- Modelled from the spec: the id-list branch of the async policy, whose implementation
is not among the source files embedded here: "issue `findMany(ids)` for the subset of
ids not already loaded; already-loaded records are reused without a network round
trip", with `find` "used by polymorphic per-type resolution". -/
def Relationship.resolveByIds (store : Store) (rel : Relationship) : Resolution :=
  let missing := rel.referencedIds.filter (fun i => !isLoaded store i)
  if missing.isEmpty then .ready (rel.manyArrayOver store rel.referencedIds)
  else if rel.isPolymorphic then .fetch (missing.map fun i => .find i.type i.id)
  else .fetch [.findMany rel.baseType (missing.map fun i => i.id)]

/-- Modelled from the spec: an access to the field, whose implementation is not among
the source files embedded here. Sync policy: "if every referenced id is already
present and loaded in the local record cache, return a ManyArray over them
immediately. If any referenced id is unloaded, fail with an `UnloadedRecordsError`
identifying the owning record, id, and field". Async policy: with an id list, "if all
referenced records are already loaded, no AdapterBridge call of any kind occurs";
otherwise "if a `link` is known and no local id list is known, or the relationship was
last populated via a link, issue `findHasMany`", and in the remaining cases the ids
that are not loaded are requested. -/
def Relationship.access (store : Store) (rel : Relationship) : Resolution :=
  if rel.isAsync then
    match rel.idsOrReferences with
    | some ids =>
      if ids.all (isLoaded store) then .ready (rel.manyArrayOver store ids)
      else
        match rel.link with
        | some link =>
          if rel.populatedViaLink then .fetch [.findHasMany rel.owner link rel.key]
          else rel.resolveByIds store
        | none => rel.resolveByIds store
    | none =>
      match rel.link with
      | some link => .fetch [.findHasMany rel.owner link rel.key]
      | none => .ready (rel.manyArrayOver store [])
  else
    if rel.referencedIds.all (isLoaded store) then
      .ready (rel.manyArrayOver store rel.referencedIds)
    else
      .failed { field := rel.key, ownerType := rel.owner.type, ownerId := rel.owner.id }

/-- The sync `comments` of post 1, referring to comments 1 and 2. -/
def syncPostComments : Relationship :=
  { owner := { type := "post", id := "1" }
    key := "comments"
    baseType := "comment"
    isPolymorphic := false
    isAsync := false
    idsOrReferences := some [comment "1", comment "2"]
    link := none
    populatedViaLink := false }

/-- The async `comments` of post 1 after they were fetched through a link: the link is
known, the relationship was last populated through it, and it refers to comments 1
and 2. -/
def linkedPostComments : Relationship :=
  { owner := { type := "post", id := "1" }
    key := "comments"
    baseType := "comment"
    isPolymorphic := false
    isAsync := true
    idsOrReferences := some [comment "1", comment "2"]
    link := some "/posts/1/comments"
    populatedViaLink := true }

/-- The store of the polymorphic scenario: post 1 and comment 3 are loaded. -/
def messageStore : Store :=
  [ { identity := { type := "post", id := "1" }, ref := 201 },
    { identity := { type := "comment", id := "3" }, ref := 203 } ]

/-- The polymorphic `messages` of user 1, referring to post 1 and comment 3. -/
def userMessages : Relationship :=
  { owner := { type := "user", id := "1" }
    key := "messages"
    baseType := "message"
    isPolymorphic := true
    isAsync := true
    idsOrReferences := some [{ type := "post", id := "1" }, { type := "comment", id := "3" }]
    link := none
    populatedViaLink := false }

/-! ## Feature flags (the file `features.js` of the build infrastructure) -/

/-- The primitive values a feature can hold: what `castValue` returns for a literal, and
`true`. Numbers are represented by integers. -/
inductive Primitive where
  | undefined
  | null
  | boolean (b : Bool)
  | number (n : Int)
  | string (s : String)
  deriving DecidableEq

/-- The object `defaults` / `features`: an ordinary object created by `\x7b\x7d`. `props`
are its own properties in enumeration order; `nullPrototype` tells whether its
prototype has been set to `null`, the prototype being `Object.prototype` until then. -/
structure PlainObject where
  props : List (String × Primitive)
  nullPrototype : Bool
  deriving DecidableEq

/-- The value of the own property `name`, if there is one. -/
def ownProperty (name : String) : List (String × Primitive) → Option Primitive
  | [] => none
  | (k, v) :: rest => if k = name then some v else ownProperty name rest

/-- Give the existing own property `name` the value `v`; its place is kept. -/
def replaceProp (name : String) (v : Primitive) :
    List (String × Primitive) → List (String × Primitive)
  | [] => []
  | (k, w) :: rest =>
    if k = name then (k, v) :: rest else (k, w) :: replaceProp name v rest

/-- The number written by a sequence of decimal digits, if it is one. -/
def parseDigits : List Char → Nat → Option Nat
  | [], acc => some acc
  | c :: cs, acc =>
    if c.isDigit then parseDigits cs (acc * 10 + (c.toNat - 48)) else none

/-- The array index a property name stands for, if any: the name is the canonical
decimal form of an integer below `2^32 - 1`. Such names are enumerated first, in
ascending order. -/
def arrayIndex (name : String) : Option Nat :=
  match name.toList with
  | [] => none
  | [c] => parseDigits [c] 0
  | c :: cs =>
    if c = '0' then none
    else
      match parseDigits (c :: cs) 0 with
      | some n => if n < 4294967295 then some n else none
      | none => none

/-- Add a new own property whose name is the array index `n`: it goes after the smaller
indices and before everything else. -/
def insertIndexed (n : Nat) (name : String) (v : Primitive) :
    List (String × Primitive) → List (String × Primitive)
  | [] => [(name, v)]
  | (k, w) :: rest =>
    match arrayIndex k with
    | some m =>
      if m < n then (k, w) :: insertIndexed n name v rest else (name, v) :: (k, w) :: rest
    | none => (name, v) :: (k, w) :: rest

/-- Add a new own property: an array index goes to its place among the indices, any
other name goes last. -/
def addProp (name : String) (v : Primitive) (props : List (String × Primitive)) :
    List (String × Primitive) :=
  match arrayIndex name with
  | some n => insertIndexed n name v props
  | none => props ++ [(name, v)]

/-- The assignment `o[name] = v` of a primitive value. An own property takes the value.
Otherwise, while the prototype is `Object.prototype`, the name `__proto__` reaches the
setter defined there, which sets the prototype to `null` when `v` is `null` and does
nothing for any other primitive. In every other case a new own property is created. -/
def PlainObject.assign (o : PlainObject) (name : String) (v : Primitive) : PlainObject :=
  if (ownProperty name o.props).isSome then { o with props := replaceProp name v o.props }
  else if name = "__proto__" && !o.nullPrototype then
    match v with
    | .null => { o with nullPrototype := true }
    | _ => o
  else { o with props := addProp name v o.props }

/-- The part of a syntax-tree node that `castValue` reads: its `type`, its `name` when
it has one, and its `value`, which is a primitive on literal nodes and `undefined` on
nodes without a value. -/
structure ValueNode where
  type : String
  name : Option String
  value : Primitive

/-- The function `castValue`. A node of no listed type falls off the end of the
function, which returns `undefined`. -/
def castValue (node : ValueNode) : Primitive :=
  if node.type = "NullLiteral" then .null
  else if node.type = "BooleanLiteral" then node.value
  else if node.type = "NumericLiteral" then node.value
  else if node.type = "StringLiteral" then node.value
  else if node.type = "Identifier" && node.name == some "undefined" then .undefined
  else .undefined

/-- The function `extractFeaturesHash`, from the point where the properties of the
exported `DEFAULT_FEATURES` object have been parsed (`node.init.properties`, each
given by its key name and value node): `defaults[prop.key.name] = castValue(prop.value)`
for each property in turn, starting from the empty object. -/
def extractFeaturesHash (properties : List (String × ValueNode)) : PlainObject :=
  properties.foldl (fun defaults prop => defaults.assign prop.1 (castValue prop.2))
    { props := [], nullPrototype := false }

/-- The pieces of a character sequence between its commas. -/
def splitComma : List Char → List (List Char)
  | [] => [[]]
  | c :: cs =>
    if c = ',' then [] :: splitComma cs
    else
      match splitComma cs with
      | piece :: pieces => (c :: piece) :: pieces
      | [] => [[c]]

/-- The call `FEATURE_OVERRIDES.split(\x27,\x27)`. -/
def split (s : String) : List String :=
  (splitComma s.toList).map String.mk

/-- The function `getFeatures`, given the parsed properties of `DEFAULT_FEATURES` and
the value of the environment variable `EMBER_DATA_FEATURE_OVERRIDE` (`none` when it is
not set). The `for ... in` loop visits the own property names of `features`, neither
prototype having enumerable properties, and reads each of them as an own property. -/
def getFeatures (properties : List (String × ValueNode)) (FEATURE_OVERRIDES : Option String) :
    PlainObject :=
  let features := extractFeaturesHash properties
  match FEATURE_OVERRIDES with
  | none => features
  | some override =>
    if override = "ENABLE_ALL_OPTIONAL" then
      (features.props.map Prod.fst).foldl
        (fun features feature =>
          match ownProperty feature features.props with
          | some .null => features.assign feature (.boolean true)
          | _ => features)
        features
    else if override != "" then
      (split override).foldl
        (fun features featureName => features.assign featureName (.boolean true))
        features
    else features

/-- A small `DEFAULT_FEATURES` object: one optional flag (`null`), one disabled and
one enabled. -/
def sampleProperties : List (String × ValueNode) :=
  [ ("SAMPLE_FEATURE_FLAG", { type := "NullLiteral", name := none, value := .null }),
    ("RECORD_DATA_ERRORS", { type := "BooleanLiteral", name := none, value := .boolean false }),
    ("RECORD_DATA_STATE", { type := "BooleanLiteral", name := none, value := .boolean true }) ]

/-- An internal model whose `getHasMany` answers with a counter and advances it, so that
asking twice gives two different answers; `setDirtyHasMany` leaves the counter alone. -/
def countingModel : InternalModel Nat (List Nat) Nat where
  getHasMany _ s := (.ok s, s + 1)
  setDirtyHasMany _ _ s := (.ok (), s)

/-! ## Helper lemmas -/

theorem indexOf_ne_neg_one_iff (xs : List String) (key : String) :
    indexOf xs key ≠ -1 ↔ key ∈ xs := by
  induction xs with
  | nil => simp [indexOf]
  | cons x xs ih =>
    have hnn : ∀ ys : List String, indexOf ys key = -1 ∨ 0 ≤ indexOf ys key := by
      intro ys
      induction ys with
      | nil => simp [indexOf]
      | cons y ys ihy =>
        unfold indexOf
        split_ifs <;> omega
    unfold indexOf
    by_cases hx : x = key
    · simp [hx]
    · have hx2 : ¬ key = x := fun h => hx h.symm
      by_cases h1 : indexOf xs key = -1
      · simp only [hx, h1, if_true, if_false, List.mem_cons, hx2, false_or]
        constructor
        · intro h; exact absurd rfl h
        · intro h; exact absurd h1 (ih.mpr h)
      · simp only [hx, h1, if_false, List.mem_cons, hx2, false_or]
        constructor
        · intro _; exact ih.mp h1
        · intro _
          rcases hnn xs with h | h
          · exact absurd h h1
          · omega

theorem guard_eq_true_iff (DEBUG : Bool) (key : String) :
    (DEBUG && indexOf reservedNames key != -1) = true ↔ DEBUG = true ∧ key ∈ reservedNames := by
  simp [bne_iff_ne, indexOf_ne_neg_one_iff]

theorem mem_reservedNames (key : String) :
    key ∈ reservedNames ↔
      key = "_internalModel" ∨ key = "recordData" ∨ key = "currentState" := by
  simp [reservedNames]

theorem get_of_reserved {σ ρ α : Type} (im : InternalModel σ ρ α) (key : String)
    (record : Record σ ρ) (h : key ∈ reservedNames) :
    Descriptor.get true im key record
      = (.error (reservedMessage key record.constructorName), record) := by
  have hg := (guard_eq_true_iff true key).mpr ⟨rfl, h⟩
  simp only [Descriptor.get, hg, if_true]

theorem set_of_reserved {σ ρ α : Type} (im : InternalModel σ ρ α) (key : String)
    (records : ρ) (record : Record σ ρ) (h : key ∈ reservedNames) :
    Descriptor.set true im key records record
      = (.error (reservedMessage key record.constructorName), record) := by
  have hg := (guard_eq_true_iff true key).mpr ⟨rfl, h⟩
  simp only [Descriptor.set, hg, if_true]

theorem get_of_not_reserved {σ ρ α : Type} (DEBUG : Bool) (im : InternalModel σ ρ α)
    (key : String) (record : Record σ ρ) (h : key ∉ reservedNames) :
    Descriptor.get DEBUG im key record
      = ((im.getHasMany key record.state).1,
          { record with
            state := (im.getHasMany key record.state).2
            calls := record.calls ++ [.getHasMany key] }) := by
  have hg : ¬ (DEBUG && indexOf reservedNames key != -1) = true := by
    rw [guard_eq_true_iff]; exact fun h2 => h h2.2
  simp only [Descriptor.get, hg, if_false]
  rfl

theorem set_calls_of_not_reserved {σ ρ α : Type} (DEBUG : Bool) (im : InternalModel σ ρ α)
    (key : String) (records : ρ) (record : Record σ ρ) (h : key ∉ reservedNames) :
    ∃ rest, (Descriptor.set DEBUG im key records record).2.calls
      = record.calls ++ .setDirtyHasMany key records :: rest := by
  have hg : ¬ (DEBUG && indexOf reservedNames key != -1) = true := by
    rw [guard_eq_true_iff]; exact fun h2 => h h2.2
  simp only [Descriptor.set, hg, if_false]
  cases (im.setDirtyHasMany key records record.state).1 with
  | error e => exact ⟨[], rfl⟩
  | ok u => exact ⟨[.getHasMany key], by simp⟩

theorem hasMany_of_object (DEBUG : Bool) (n : String → String) (i : JSValue → String)
    (type options : JSValue) (h : typeof type = "object") :
    hasMany DEBUG n i type options
      = .ok { meta :=
          { type := .undefined
            options := type.or (.object [])
            isRelationship := true
            kind := "hasMany"
            name := "Has Many"
            key := .null } } := by
  cases DEBUG <;> cases type <;> simp [typeof] at h <;> rfl

theorem hasMany_of_undefined (DEBUG : Bool) (n : String → String) (i : JSValue → String)
    (options : JSValue) :
    hasMany DEBUG n i .undefined options
      = .ok { meta :=
          { type := .undefined
            options := options.or (.object [])
            isRelationship := true
            kind := "hasMany"
            name := "Has Many"
            key := .null } } := by
  cases DEBUG <;> rfl

theorem hasMany_of_string (DEBUG : Bool) (n : String → String) (i : JSValue → String)
    (s : String) (options : JSValue) :
    hasMany DEBUG n i (.string s) options
      = .ok { meta :=
          { type := .string (n s)
            options := options.or (.object [])
            isRelationship := true
            kind := "hasMany"
            name := "Has Many"
            key := .null } } := by
  cases DEBUG <;> rfl

theorem hasMany_of_other (n : String → String) (i : JSValue → String) (type options : JSValue)
    (h : typeof type ∉ ["string", "undefined", "object"]) :
    hasMany true n i type options
      = .error ("Assertion Failed: " ++ invalidTypeMessage (i type)) := by
  cases type <;> simp [typeof] at h <;> rfl

theorem hasMany_production_of_other (n : String → String) (i : JSValue → String)
    (type options : JSValue) (h : typeof type ∉ ["string", "undefined", "object"]) :
    hasMany false n i type options
      = .ok { meta :=
          { type := type
            options := options.or (.object [])
            isRelationship := true
            kind := "hasMany"
            name := "Has Many"
            key := .null } } := by
  cases type <;> simp [typeof] at h <;> rfl

theorem calls_append_cons_ne {ρ : Type} (cs : List (Call ρ)) (c : Call ρ) (rest : List (Call ρ)) :
    cs ++ c :: rest ≠ cs := by
  intro h
  have hl := congrArg List.length h
  simp at hl

theorem bindKey_of_null (k : String) (m : RelationshipMeta) (h : m.key = .null) :
    (bindKey k m).key = .string k := by
  simp [bindKey, h]

theorem bindKey_of_string (k k0 : String) (m : RelationshipMeta) (h : m.key = .string k0) :
    (bindKey k m).key = .string k0 := by
  simp [bindKey, h]

theorem access_meta {σ ρ α : Type} (DEBUG : Bool) (im : InternalModel σ ρ α)
    (f : Field σ ρ) (a : Access ρ) :
    (Field.access DEBUG im f a).descriptor.meta = bindKey a.key f.descriptor.meta := by
  cases a <;> rfl

theorem accessAll_key_of_string {σ ρ α : Type} (DEBUG : Bool) (im : InternalModel σ ρ α)
    (k0 : String) (accesses : List (Access ρ)) :
    ∀ f : Field σ ρ, f.descriptor.meta.key = .string k0 →
      (Field.accessAll DEBUG im f accesses).descriptor.meta.key = .string k0 := by
  induction accesses with
  | nil => intro f h; exact h
  | cons a rest ih =>
    intro f h
    show (Field.accessAll DEBUG im (Field.access DEBUG im f a) rest).descriptor.meta.key = _
    apply ih
    rw [access_meta]
    exact bindKey_of_string _ _ _ h

theorem hasMany_ok_meta (DEBUG : Bool) (n : String → String) (i : JSValue → String)
    (type options : JSValue) (d : Descriptor) (h : hasMany DEBUG n i type options = .ok d) :
    d.meta =
      { type :=
          match type with
          | .string s => .string (n s)
          | .undefined => .undefined
          | .null => .undefined
          | .object _ => .undefined
          | .array _ => .undefined
          | t => t
        options := (if typeof type = "object" then type else options).or (.object [])
        isRelationship := true
        kind := "hasMany"
        name := "Has Many"
        key := .null } := by
  by_cases hobj : typeof type = "object"
  · rw [hasMany_of_object DEBUG n i type options hobj] at h
    cases h
    cases type <;> simp [typeof] at hobj <;> simp [typeof]
  · cases type with
    | undefined =>
      rw [hasMany_of_undefined] at h
      cases h
      simp [typeof]
    | string s =>
      rw [hasMany_of_string] at h
      cases h
      simp [typeof]
    | null => simp [typeof] at hobj
    | object props => simp [typeof] at hobj
    | array items => simp [typeof] at hobj
    | boolean b =>
      cases DEBUG
      · rw [hasMany_production_of_other n i _ options (by simp [typeof])] at h
        cases h; simp [typeof]
      · rw [hasMany_of_other n i _ options (by simp [typeof])] at h; cases h
    | number b =>
      cases DEBUG
      · rw [hasMany_production_of_other n i _ options (by simp [typeof])] at h
        cases h; simp [typeof]
      · rw [hasMany_of_other n i _ options (by simp [typeof])] at h; cases h
    | bigint b =>
      cases DEBUG
      · rw [hasMany_production_of_other n i _ options (by simp [typeof])] at h
        cases h; simp [typeof]
      · rw [hasMany_of_other n i _ options (by simp [typeof])] at h; cases h
    | symbol b =>
      cases DEBUG
      · rw [hasMany_production_of_other n i _ options (by simp [typeof])] at h
        cases h; simp [typeof]
      · rw [hasMany_of_other n i _ options (by simp [typeof])] at h; cases h
    | function b =>
      cases DEBUG
      · rw [hasMany_production_of_other n i _ options (by simp [typeof])] at h
        cases h; simp [typeof]
      · rw [hasMany_of_other n i _ options (by simp [typeof])] at h; cases h

theorem or_of_falsy (v : JSValue)
    (h : v = .undefined ∨ v = .null ∨ v = .boolean false ∨ v = .number 0 ∨ v = .bigint 0
      ∨ v = .string "") :
    v.or (.object []) = .object [] := by
  rcases h with h | h | h | h | h | h <;> subst h <;> rfl

theorem or_of_not_falsy (v : JSValue)
    (h : ¬ (v = .undefined ∨ v = .null ∨ v = .boolean false ∨ v = .number 0 ∨ v = .bigint 0
      ∨ v = .string "")) :
    v.or (.object []) = v := by
  simp only [not_or] at h
  obtain ⟨h1, h2, h3, h4, h5, h6⟩ := h
  cases v with
  | undefined => exact absurd rfl h1
  | null => exact absurd rfl h2
  | boolean b =>
    cases b
    · exact absurd rfl h3
    · rfl
  | number x =>
    have hx : x ≠ 0 := fun e => h4 (by rw [e])
    simp [JSValue.or, JSValue.truthy, hx]
  | bigint x =>
    have hx : x ≠ 0 := fun e => h5 (by rw [e])
    simp [JSValue.or, JSValue.truthy, hx]
  | string x =>
    have hx : x ≠ "" := fun e => h6 (by rw [e])
    simp [JSValue.or, JSValue.truthy, hx]
  | symbol x => rfl
  | function x => rfl
  | object x => rfl
  | array x => rfl

theorem peekRecord_identity (store : Store) (i : Identity) (r : RecordObject)
    (h : peekRecord store i = some r) : r.identity = i := by
  have := List.find?_some h
  simpa using this

theorem materialize_loaded (store : Store) (i : Identity) (h : isLoaded store i = true) :
    ∃ r, materialize store i = .loaded r ∧ r.identity = i ∧ peekRecord store i = some r := by
  unfold isLoaded at h
  obtain ⟨r, hr⟩ := Option.isSome_iff_exists.mp h
  exact ⟨r, by simp [materialize, hr], peekRecord_identity store i r hr, hr⟩

theorem materialize_storeBacked (store : Store) (i : Identity) (h : isLoaded store i = true) :
    (materialize store i).isLoaded = true
      ∧ materialize store (materialize store i).identity = materialize store i := by
  obtain ⟨r, hm, hi, _⟩ := materialize_loaded store i h
  rw [hm]
  refine ⟨rfl, ?_⟩
  show materialize store r.identity = _
  rw [hi, hm]

theorem reconcile_elements (store : Store) (ma : ManyArray) (ids : List Identity)
    (hma : StoreBacked store ma) :
    (ma.reconcile store ids).elements = ids.map (materialize store) := by
  unfold ManyArray.reconcile
  apply List.map_congr_left
  intro i _
  cases hf : ma.elements.find? (fun m => m.isLoaded && m.identity = i) with
  | none => rfl
  | some m =>
    have hp := List.find?_some hf
    have hmem := List.mem_of_find?_eq_some hf
    simp only [Bool.and_eq_true, decide_eq_true_eq] at hp
    have := (hma m hmem).2
    rw [hp.2] at this
    exact this.symm

theorem reconcile_storeBacked (store : Store) (ma : ManyArray) (ids : List Identity)
    (hma : StoreBacked store ma) (hloaded : ∀ i ∈ ids, isLoaded store i = true) :
    StoreBacked store (ma.reconcile store ids) := by
  intro m hm
  rw [reconcile_elements store ma ids hma] at hm
  obtain ⟨i, hi, rfl⟩ := List.mem_map.mp hm
  exact materialize_storeBacked store i (hloaded i hi)

theorem pushAll_storeBacked (store : Store) (pushes : List (List Identity)) :
    ∀ ma : ManyArray, StoreBacked store ma →
      (∀ l ∈ pushes, ∀ i ∈ l, isLoaded store i = true) →
      StoreBacked store (ma.pushAll store pushes) := by
  induction pushes with
  | nil => intro ma hma _; exact hma
  | cons l rest ih =>
    intro ma hma hl
    show StoreBacked store ((ma.reconcile store l).pushAll store rest)
    apply ih
    · exact reconcile_storeBacked store ma l hma (hl l (List.mem_cons_self _ _))
    · intro l2 hl2; exact hl l2 (List.mem_cons_of_mem _ hl2)

theorem pushAll_append_singleton (store : Store) (ma : ManyArray)
    (earlier : List (List Identity)) (ids : List Identity) :
    ma.pushAll store (earlier ++ [ids]) = (ma.pushAll store earlier).reconcile store ids := by
  simp [ManyArray.pushAll, List.foldl_append]

theorem typeGuard_iff (subtypes : SubtypeTable) (declaredType : String) (isPolymorphic : Bool)
    (candidateType : String) :
    typeGuard subtypes declaredType isPolymorphic candidateType = true ↔
      (isPolymorphic = false ∧ candidateType = declaredType)
      ∨ (isPolymorphic = true
          ∧ (candidateType = declaredType ∨ (candidateType, declaredType) ∈ subtypes)) := by
  cases isPolymorphic <;> simp [typeGuard]

/-! ## The accessor: read-only claim, reserved names, delegation -/

/-- C1, evaluated at an explicit input: on a record of class `Post` with an empty
relationship table, `set("comments", [1, 2])` in a debug build does not fail. It
returns the new members, the relationship state now holds them, and the trace shows
one `setDirtyHasMany("comments", [1, 2])` followed by one `getHasMany("comments")`. -/
theorem set_comments_is_applied :
    Descriptor.set true tableModel "comments" [1, 2]
        { constructorName := "Post", state := [], calls := [] }
      = (.ok [1, 2],
          { constructorName := "Post"
            state := [("comments", [1, 2])]
            calls := [.setDirtyHasMany "comments" [1, 2], .getHasMany "comments"] }) := by
  rfl

/-- C3: in a debug build, for every field name `key`, `get(key)` throws the
reserved-property error without having called the internal model (the record and its
call trace are returned untouched) exactly when `key` is `_internalModel`, `recordData`
or `currentState`; the same holds for `set(key, records)`; and the message of that
error starts with the quoted `key`. -/
theorem reserved_name_guard {σ ρ α : Type} (im : InternalModel σ ρ α) (key : String)
    (records : ρ) (record : Record σ ρ) :
    (Descriptor.get true im key record
        = (.error (reservedMessage key record.constructorName), record)
      ↔ key = "_internalModel" ∨ key = "recordData" ∨ key = "currentState")
    ∧ (Descriptor.set true im key records record
        = (.error (reservedMessage key record.constructorName), record)
      ↔ key = "_internalModel" ∨ key = "recordData" ∨ key = "currentState")
    ∧ (∃ rest, reservedMessage key record.constructorName = "\x27" ++ key ++ rest) := by
  rw [← mem_reservedNames]
  refine ⟨⟨?_, get_of_reserved im key record⟩, ⟨?_, set_of_reserved im key records record⟩,
    ⟨_, by unfold reservedMessage; rw [String.append_assoc]⟩⟩
  · intro h
    by_contra hk
    rw [get_of_not_reserved true im key record hk] at h
    have hc := congrArg (fun p => p.2.calls) h
    exact calls_append_cons_ne _ _ [] hc
  · intro h
    by_contra hk
    obtain ⟨rest, hrest⟩ := set_calls_of_not_reserved true im key records record hk
    rw [h] at hrest
    exact calls_append_cons_ne _ _ rest hrest.symm

/-- C4: for every record, every build flag and every field name `key` that is not
reserved, `get(key)` returns exactly what the internal model's `getHasMany(key)`
returns on the record's state, the state afterwards is the one `getHasMany` left, and
the only call added to the trace is that one `getHasMany(key)`: no `setDirtyHasMany`. -/
theorem get_delegates_to_getHasMany {σ ρ α : Type} (DEBUG : Bool) (im : InternalModel σ ρ α)
    (key : String) (record : Record σ ρ)
    (h : key ≠ "_internalModel" ∧ key ≠ "recordData" ∧ key ≠ "currentState") :
    (Descriptor.get DEBUG im key record).1 = (im.getHasMany key record.state).1
    ∧ (Descriptor.get DEBUG im key record).2.state = (im.getHasMany key record.state).2
    ∧ (Descriptor.get DEBUG im key record).2.calls = record.calls ++ [.getHasMany key]
    ∧ (Descriptor.get DEBUG im key record).2.constructorName = record.constructorName := by
  have hk : key ∉ reservedNames := by
    rw [mem_reservedNames]; tauto
  rw [get_of_not_reserved DEBUG im key record hk]
  exact ⟨rfl, rfl, rfl, rfl⟩

/-- C4 applied to a record of class `Post` whose `comments` hold the ids 1 and 2. -/
theorem get_delegates_to_getHasMany_witness :
    ("comments" ≠ "_internalModel" ∧ "comments" ≠ "recordData" ∧ "comments" ≠ "currentState")
    ∧ (Descriptor.get true tableModel "comments"
        { constructorName := "Post", state := [("comments", [1, 2])], calls := [] }).1
      = .ok [1, 2] :=
  ⟨by decide,
    (get_delegates_to_getHasMany true tableModel "comments"
      { constructorName := "Post", state := [("comments", [1, 2])], calls := [] }
      (by decide)).1⟩

/-! ## The declaration function: accepted arguments and metadata -/

/-- C2 fails as stated: in a debug build `hasMany(\x7basync: false\x7d)`, whose first
argument is an object, is not rejected but returns a descriptor with that object as the
options; and in a production build, where `assert` does nothing, `hasMany(42)` returns
a descriptor as well. -/
theorem hasMany_accepts_options_object :
    hasMany true lowerCase (fun _ => "") (.object [("async", .boolean false)]) .undefined
      = .ok { meta :=
          { type := .undefined
            options := .object [("async", .boolean false)]
            isRelationship := true
            kind := "hasMany"
            name := "Has Many"
            key := .null } }
    ∧ hasMany false lowerCase (fun _ => "") (.number 42) .undefined
      = .ok { meta :=
          { type := .number 42
            options := .object []
            isRelationship := true
            kind := "hasMany"
            name := "Has Many"
            key := .null } } :=
  ⟨rfl, rfl⟩

/-- C2 as amended: in a debug build, for every first argument other than `null` and an
array, `hasMany(type, options)` fails with the invalid-argument assertion exactly when
`type` is a boolean, a number, a bigint, a symbol or a function, and the failure is the
assertion message alone, whatever the normalizer is: no descriptor is built. It returns
a descriptor exactly when `type` is absent, a string or an options object. -/
theorem hasMany_rejects_non_string (n : String → String) (i : JSValue → String)
    (type options : JSValue) (hnull : type ≠ .null) (harray : ∀ items, type ≠ .array items) :
    (hasMany true n i type options
        = .error ("Assertion Failed: " ++ invalidTypeMessage (i type))
      ↔ ((∃ b, type = .boolean b) ∨ (∃ x, type = .number x) ∨ (∃ x, type = .bigint x)
          ∨ (∃ x, type = .symbol x) ∨ (∃ x, type = .function x)))
    ∧ ((∃ d, hasMany true n i type options = .ok d)
      ↔ (type = .undefined ∨ (∃ s, type = .string s) ∨ (∃ props, type = .object props))) := by
  cases type with
  | null => exact absurd rfl hnull
  | array items => exact absurd rfl (harray items)
  | undefined => simp [hasMany_of_undefined]
  | string s => simp [hasMany_of_string]
  | object props => simp [hasMany_of_object true n i (.object props) options rfl]
  | boolean b => simp [hasMany_of_other n i (.boolean b) options (by simp [typeof])]
  | number x => simp [hasMany_of_other n i (.number x) options (by simp [typeof])]
  | bigint x => simp [hasMany_of_other n i (.bigint x) options (by simp [typeof])]
  | symbol x => simp [hasMany_of_other n i (.symbol x) options (by simp [typeof])]
  | function x => simp [hasMany_of_other n i (.function x) options (by simp [typeof])]

/-- C2 as amended, applied to `hasMany(42)` in a debug build: the call fails with the
assertion message. -/
theorem hasMany_rejects_non_string_witness :
    JSValue.number 42 ≠ .null
    ∧ (∀ items, JSValue.number 42 ≠ .array items)
    ∧ hasMany true lowerCase (fun _ => "42") (.number 42) .undefined
      = .error ("Assertion Failed: " ++ invalidTypeMessage "42") :=
  ⟨by simp, by simp,
    (hasMany_rejects_non_string lowerCase (fun _ => "42") (.number 42) .undefined
      (by simp) (by simp)).1.mpr (Or.inr (Or.inl ⟨42, rfl⟩))⟩

/-- C5: whenever `hasMany(type, options)` returns a descriptor, in either build, its
metadata has `kind = "hasMany"`, `isRelationship = true`, `name = "Has Many"` and
`key = null`; its type is `normalizeModelName(type)` when `type` is a string and
`undefined` when `type` is absent; when `type` is a string or absent its options are the
empty object if `options` is absent or falsy (`undefined`, `null`, `false`, `0`, the
empty string) and `options` itself otherwise; and when the first argument is an options
object, that object is the options and the type is `undefined`. -/
theorem hasMany_meta (DEBUG : Bool) (n : String → String) (i : JSValue → String)
    (type options : JSValue) (d : Descriptor)
    (h : hasMany DEBUG n i type options = .ok d) :
    d.meta.kind = "hasMany"
    ∧ d.meta.isRelationship = true
    ∧ d.meta.name = "Has Many"
    ∧ d.meta.key = .null
    ∧ (∀ s, type = .string s → d.meta.type = .string (n s))
    ∧ (type = .undefined → d.meta.type = .undefined)
    ∧ (∀ props, type = .object props →
        d.meta.type = .undefined ∧ d.meta.options = .object props)
    ∧ ((type = .undefined ∨ ∃ s, type = .string s) →
        ((options = .undefined ∨ options = .null ∨ options = .boolean false
            ∨ options = .number 0 ∨ options = .bigint 0 ∨ options = .string "") →
          d.meta.options = .object [])
        ∧ (¬ (options = .undefined ∨ options = .null ∨ options = .boolean false
            ∨ options = .number 0 ∨ options = .bigint 0 ∨ options = .string "") →
          d.meta.options = options)) := by
  rw [hasMany_ok_meta DEBUG n i type options d h]
  refine ⟨rfl, rfl, rfl, rfl, ?_, ?_, ?_, ?_⟩
  · intro s hs; subst hs; rfl
  · intro hu; subst hu; rfl
  · intro props hp; subst hp; exact ⟨rfl, rfl⟩
  · intro ht
    have hnot : ¬ typeof type = "object" := by
      rcases ht with ht | ⟨s, ht⟩ <;> subst ht <;> simp [typeof]
    simp only [hnot, if_false]
    exact ⟨or_of_falsy options, or_of_not_falsy options⟩

/-- C5 applied to `hasMany("Comment")`, called without options in a debug build under
the normalizer `lowerCase`: the type is `comment` and the options are the empty
object. -/
theorem hasMany_meta_witness :
    hasMany true lowerCase (fun _ => "") (.string "Comment") .undefined
        = .ok bareCommentsDescriptor
    ∧ bareCommentsDescriptor.meta.kind = "hasMany"
    ∧ bareCommentsDescriptor.meta.isRelationship = true
    ∧ bareCommentsDescriptor.meta.name = "Has Many"
    ∧ bareCommentsDescriptor.meta.key = .null
    ∧ bareCommentsDescriptor.meta.type = .string "comment"
    ∧ bareCommentsDescriptor.meta.options = .object [] :=
  have h := hasMany_meta true lowerCase (fun _ => "") (.string "Comment") .undefined
      bareCommentsDescriptor rfl
  ⟨rfl, h.1, h.2.1, h.2.2.1, h.2.2.2.1, h.2.2.2.2.1 "Comment" rfl,
    (h.2.2.2.2.2.2.2 (Or.inr ⟨"Comment", rfl⟩)).1 (Or.inl rfl)⟩

/-- C6: for every options object `o`, in either build, `hasMany(o)` returns the same
descriptor as `hasMany(undefined, o)`: the type is left `undefined` and `o` itself is
the options. -/
theorem hasMany_options_first (DEBUG : Bool) (n : String → String) (i : JSValue → String)
    (props : List (String × JSValue)) :
    hasMany DEBUG n i (.object props) .undefined
        = hasMany DEBUG n i .undefined (.object props)
    ∧ hasMany DEBUG n i (.object props) .undefined
      = .ok { meta :=
          { type := .undefined
            options := .object props
            isRelationship := true
            kind := "hasMany"
            name := "Has Many"
            key := .null } } := by
  cases DEBUG <;> exact ⟨rfl, rfl⟩

/-- C7 fails as stated: `hasMany("comment")`, called without options, returns metadata
whose options are the empty object, so that reading `async` from them gives
`undefined`, not `true`, and reading `polymorphic` gives `undefined`, not `false`. -/
theorem hasMany_writes_no_defaults :
    ∃ d, hasMany true (fun s => s) (fun _ => "") (.string "comment") .undefined = .ok d
      ∧ d.meta.options.getProp "async" = .undefined
      ∧ d.meta.options.getProp "async" ≠ .boolean true
      ∧ d.meta.options.getProp "polymorphic" = .undefined
      ∧ d.meta.options.getProp "polymorphic" ≠ .boolean false :=
  ⟨_, rfl, rfl, by simp [JSValue.getProp, JSValue.or, JSValue.truthy, lookupProp], rfl,
    by simp [JSValue.getProp, JSValue.or, JSValue.truthy, lookupProp]⟩

/-- C7 as amended: `hasMany` stores the options as they are handed in and adds no
default. Whenever a descriptor is returned, in either build, and the options handed in
(the second argument, or the first one when that is an object) omit a property, `async`
and `polymorphic` among them, that property reads `undefined` from the stored
options. -/
theorem hasMany_options_verbatim (DEBUG : Bool) (n : String → String)
    (i : JSValue → String) (type options : JSValue) (d : Descriptor) (name : String)
    (h : hasMany DEBUG n i type options = .ok d)
    (homit : (if typeof type = "object" then type else options).getProp name = .undefined) :
    d.meta.options.getProp name = .undefined := by
  rw [hasMany_ok_meta DEBUG n i type options d h]
  show ((if typeof type = "object" then type else options).or (.object [])).getProp name = _
  generalize (if typeof type = "object" then type else options) = o at homit
  unfold JSValue.or
  split
  · exact homit
  · rfl

/-- C7 as amended, applied to `hasMany("comment", \x7binverse: "post"\x7d)` and the
property `async`. -/
theorem hasMany_options_verbatim_witness :
    hasMany true (fun s => s) (fun _ => "") (.string "comment")
        (.object [("inverse", .string "post")]) = .ok commentsDescriptor
    ∧ (JSValue.object [("inverse", .string "post")]).getProp "async" = .undefined
    ∧ commentsDescriptor.meta.options.getProp "async" = .undefined :=
  ⟨rfl, rfl, hasMany_options_verbatim true (fun s => s) (fun _ => "") (.string "comment")
      (.object [("inverse", .string "post")]) commentsDescriptor "async" rfl rfl⟩

/-! ## The metadata key -/

/-- C8: the metadata key of a declared field is `null` in the descriptor `hasMany`
returns, in either build; after the first access (a `get` or a `set`) it is the field
name that access was made with; and it is still that name after any further sequence
of `get` and `set` accesses, whatever field names they carry. -/
theorem key_bound_lazily_then_fixed {σ ρ α : Type} (declaredInDebug : Bool)
    (n : String → String) (i : JSValue → String) (type options : JSValue) (d : Descriptor)
    (h : hasMany declaredInDebug n i type options = .ok d)
    (DEBUG : Bool) (im : InternalModel σ ρ α) (record : Record σ ρ)
    (first : Access ρ) (later : List (Access ρ)) :
    d.meta.key = .null
    ∧ (Field.access DEBUG im { descriptor := d, record := record } first).descriptor.meta.key
        = .string first.key
    ∧ (Field.accessAll DEBUG im { descriptor := d, record := record }
          (first :: later)).descriptor.meta.key
        = .string first.key := by
  have hnull : d.meta.key = .null := by
    rw [hasMany_ok_meta declaredInDebug n i type options d h]
  have hfirst :
      (Field.access DEBUG im { descriptor := d, record := record } first).descriptor.meta.key
        = .string first.key := by
    rw [access_meta]
    exact bindKey_of_null _ _ hnull
  exact ⟨hnull, hfirst, accessAll_key_of_string DEBUG im first.key later _ hfirst⟩

/-- C8 applied to the `comments` field declared by
`hasMany("comment", \x7binverse: "post"\x7d)`: read once, then set and read under other
names. -/
theorem key_bound_lazily_then_fixed_witness :
    hasMany true (fun s => s) (fun _ => "") (.string "comment")
        (.object [("inverse", .string "post")]) = .ok commentsDescriptor
    ∧ (Field.accessAll true tableModel
          { descriptor := commentsDescriptor
            record := { constructorName := "Post", state := [], calls := [] } }
          [.get "comments", .set "tags" [1], .get "authors"]).descriptor.meta.key
        = .string "comments" :=
  ⟨rfl,
    (key_bound_lazily_then_fixed true (fun s => s) (fun _ => "") (.string "comment")
      (.object [("inverse", .string "post")]) commentsDescriptor rfl true tableModel
      { constructorName := "Post", state := [], calls := [] }
      (.get "comments") [.set "tags" [1], .get "authors"]).2.2⟩

/-! ## The many array: ordering and the type guard -/

/-- C9: start from a freshly created many array and push any sequence of id lists
whose ids are all loaded in the store. After the last push `ids` (and so after each
push, every prefix of a sequence being a sequence), the elements are exactly the
store's records for `ids`, in the order of `ids`: their identities are `ids`, each is a
loaded record held by the store, and every element that was in the array before the
push and whose identity is pushed again is in the array afterwards as the same object. -/
theorem reconcile_order_fidelity (store : Store) (ma : ManyArray)
    (earlier : List (List Identity)) (ids : List Identity)
    (hnew : ma.elements = [])
    (hloaded : ∀ l ∈ earlier ++ [ids], ∀ i ∈ l, isLoaded store i = true) :
    (ma.pushAll store (earlier ++ [ids])).elements = ids.map (materialize store)
    ∧ (ma.pushAll store (earlier ++ [ids])).elements.map Member.identity = ids
    ∧ (∀ m ∈ (ma.pushAll store (earlier ++ [ids])).elements,
        ∃ r, m = .loaded r ∧ peekRecord store r.identity = some r)
    ∧ (∀ m ∈ (ma.pushAll store earlier).elements,
        m.identity ∈ ids → m ∈ (ma.pushAll store (earlier ++ [ids])).elements) := by
  have hempty : StoreBacked store ma := by
    intro m hm
    rw [hnew] at hm
    cases hm
  have hbefore : StoreBacked store (ma.pushAll store earlier) :=
    pushAll_storeBacked store earlier ma hempty
      (fun l hl => hloaded l (List.mem_append_left _ hl))
  have hids : ∀ i ∈ ids, isLoaded store i = true :=
    hloaded ids (List.mem_append_right _ (List.mem_singleton_self _))
  have helems := reconcile_elements store (ma.pushAll store earlier) ids hbefore
  rw [pushAll_append_singleton, helems]
  refine ⟨rfl, ?_, ?_, ?_⟩
  · rw [List.map_map]
    conv => rhs; rw [← List.map_id ids]
    apply List.map_congr_left
    intro i hi
    obtain ⟨r, hm, hr, _⟩ := materialize_loaded store i (hids i hi)
    simp [hm, Member.identity, hr]
  · intro m hm
    obtain ⟨i, hi, rfl⟩ := List.mem_map.mp hm
    obtain ⟨r, hmat, hr, hp⟩ := materialize_loaded store i (hids i hi)
    exact ⟨r, hmat, by rw [hr]; exact hp⟩
  · intro m hm hid
    rw [← (hbefore m hm).2]
    exact List.mem_map.mpr ⟨m.identity, hid, rfl⟩

/-- C9 applied to the ordering scenario: comments 1 to 4 are loaded, the lists
`[1,2]`, `[2,1]`, `[2]`, `[1,2,3,4]`, `[4,3]` have been pushed and `[4,2,3,1]` is pushed
last; the elements then carry the identities 4, 2, 3, 1 in that order. -/
theorem reconcile_order_fidelity_witness :
    (postComments.pushAll commentStore
        ([[comment "1", comment "2"], [comment "2", comment "1"], [comment "2"],
          [comment "1", comment "2", comment "3", comment "4"],
          [comment "4", comment "3"]]
          ++ [[comment "4", comment "2", comment "3", comment "1"]])).elements.map
        Member.identity
      = [comment "4", comment "2", comment "3", comment "1"] :=
  (reconcile_order_fidelity commentStore postComments
    [[comment "1", comment "2"], [comment "2", comment "1"], [comment "2"],
      [comment "1", comment "2", comment "3", comment "4"], [comment "4", comment "3"]]
    [comment "4", comment "2", comment "3", comment "1"] rfl (by decide)).2.1

/-- C10: for every many array and candidate record, either the candidate's type passes
the guard (it equals the declared type of a monomorphic relationship, or it is the
declared base type or a declared subtype of it for a polymorphic one) and the add is
accepted, or it does not pass and the add fails with the type-mismatch error naming
the candidate's type and the relationship, the many array being returned unchanged. -/
theorem add_type_guard (subtypes : SubtypeTable) (ma : ManyArray) (record : RecordObject) :
    (((ma.isPolymorphic = false ∧ record.identity.type = ma.baseType)
        ∨ (ma.isPolymorphic = true
            ∧ (record.identity.type = ma.baseType
                ∨ (record.identity.type, ma.baseType) ∈ subtypes)))
      ∧ (ma.add subtypes record).1 = .ok ())
    ∨ (¬ ((ma.isPolymorphic = false ∧ record.identity.type = ma.baseType)
          ∨ (ma.isPolymorphic = true
              ∧ (record.identity.type = ma.baseType
                  ∨ (record.identity.type, ma.baseType) ∈ subtypes)))
      ∧ ma.add subtypes record
          = (.error { offendingType := record.identity.type, relationship := ma.key }, ma)) := by
  rw [← typeGuard_iff]
  by_cases hg : typeGuard subtypes ma.baseType ma.isPolymorphic record.identity.type = true
  · left
    refine ⟨hg, ?_⟩
    unfold ManyArray.add
    rw [if_pos hg]
    split <;> rfl
  · right
    refine ⟨hg, ?_⟩
    unfold ManyArray.add
    rw [if_neg hg]

/-! ## Helper lemmas: resolver and feature flags -/

theorem manyArrayOver_identities (store : Store) (rel : Relationship) (ids : List Identity)
    (h : ∀ i ∈ ids, isLoaded store i = true) :
    (rel.manyArrayOver store ids).elements.map Member.identity = ids := by
  show (ids.map (materialize store)).map Member.identity = ids
  rw [List.map_map]
  conv => rhs; rw [← List.map_id ids]
  apply List.map_congr_left
  intro i hi
  obtain ⟨r, hm, hr, _⟩ := materialize_loaded store i (h i hi)
  simp [hm, Member.identity, hr]

theorem manyArrayOver_loaded (store : Store) (rel : Relationship) (ids : List Identity)
    (h : ∀ i ∈ ids, isLoaded store i = true) :
    ∀ m ∈ (rel.manyArrayOver store ids).elements,
      ∃ r, m = .loaded r ∧ peekRecord store r.identity = some r := by
  intro m hm
  obtain ⟨i, hi, rfl⟩ := List.mem_map.mp hm
  obtain ⟨r, hmat, hr, hp⟩ := materialize_loaded store i (h i hi)
  exact ⟨r, hmat, by rw [hr]; exact hp⟩

theorem access_sync_of_loaded (store : Store) (rel : Relationship)
    (hsync : rel.isAsync = false) (h : ∀ i ∈ rel.referencedIds, isLoaded store i = true) :
    rel.access store = .ready (rel.manyArrayOver store rel.referencedIds) := by
  have hall : rel.referencedIds.all (isLoaded store) = true := by
    rw [List.all_eq_true]; exact h
  simp [Relationship.access, hsync, hall]

/-! ## The resolver: sync access and redundant fetches -/

/-- C11: for every sync relationship, if its id list holds an id that is not loaded in
the store, accessing the field fails with the error naming the field, the type of the
owner and the id of the owner; and if every referenced id is loaded, the access
returns the many array over exactly those records: its elements carry the referenced
identities in order and each is the loaded record the store holds. -/
theorem sync_access_requires_loaded (store : Store) (rel : Relationship)
    (hsync : rel.isAsync = false) :
    ((∃ i ∈ rel.referencedIds, isLoaded store i = false) →
      rel.access store
        = .failed { field := rel.key, ownerType := rel.owner.type, ownerId := rel.owner.id })
    ∧ ((∀ i ∈ rel.referencedIds, isLoaded store i = true) →
      rel.access store = .ready (rel.manyArrayOver store rel.referencedIds)
      ∧ (rel.manyArrayOver store rel.referencedIds).elements.map Member.identity
          = rel.referencedIds
      ∧ ∀ m ∈ (rel.manyArrayOver store rel.referencedIds).elements,
          ∃ r, m = .loaded r ∧ peekRecord store r.identity = some r) := by
  constructor
  · rintro ⟨i, hi, hl⟩
    have hall : ¬ rel.referencedIds.all (isLoaded store) = true := by
      rw [List.all_eq_true]
      intro h
      rw [h i hi] at hl
      cases hl
    simp [Relationship.access, hsync, hall]
  · intro h
    exact ⟨access_sync_of_loaded store rel hsync h,
      manyArrayOver_identities store rel _ h, manyArrayOver_loaded store rel _ h⟩

/-- C11 applied to the sync `comments` of post 1 (comments 1 and 2) with nothing
loaded: the access fails, naming `comments`, `post` and `1`. -/
theorem sync_access_requires_loaded_witness :
    syncPostComments.isAsync = false
    ∧ syncPostComments.access []
        = .failed { field := "comments", ownerType := "post", ownerId := "1" } :=
  ⟨rfl, (sync_access_requires_loaded [] syncPostComments rfl).1
    ⟨comment "1", by decide, by decide⟩⟩

/-- C12: for every relationship, monomorphic or polymorphic, sync or async, with or
without a link, whose id list is `ids`: if every id of `ids` is loaded in the store,
accessing the field issues no adapter request (no `findMany`, `findHasMany` or `find`)
and yields a many array whose elements carry the identities `ids` in order, each a
loaded record held by the store, so that its length is the number of referenced ids. -/
theorem no_redundant_fetch (store : Store) (rel : Relationship) (ids : List Identity)
    (hids : rel.idsOrReferences = some ids)
    (hloaded : ∀ i ∈ ids, isLoaded store i = true) :
    (rel.access store).adapterCalls = []
    ∧ (∃ ma, rel.access store = .ready ma
        ∧ ma.elements.map Member.identity = ids
        ∧ ma.elements.length = ids.length
        ∧ ∀ m ∈ ma.elements, ∃ r, m = .loaded r ∧ peekRecord store r.identity = some r) := by
  have hall : ids.all (isLoaded store) = true := by
    rw [List.all_eq_true]; exact hloaded
  have href : rel.referencedIds = ids := by
    simp [Relationship.referencedIds, hids]
  have hready : rel.access store = .ready (rel.manyArrayOver store ids) := by
    cases hsync : rel.isAsync with
    | false => simp [Relationship.access, hsync, href, hall]
    | true => simp [Relationship.access, hsync, hids, hall]
  refine ⟨by rw [hready]; rfl, _, hready, manyArrayOver_identities store rel ids hloaded, ?_,
    manyArrayOver_loaded store rel ids hloaded⟩
  simp [Relationship.manyArrayOver]

/-- C12 applied to the polymorphic `messages` of user 1 (post 1 and comment 3, both
loaded): no adapter request, and the many array holds the two loaded records in order.
The same for the `comments` of post 1 that were last populated through a link. -/
theorem no_redundant_fetch_witness :
    userMessages.idsOrReferences
        = some [{ type := "post", id := "1" }, { type := "comment", id := "3" }]
    ∧ (∀ i ∈ [({ type := "post", id := "1" } : Identity), { type := "comment", id := "3" }],
        isLoaded messageStore i = true)
    ∧ (userMessages.access messageStore).adapterCalls = []
    ∧ userMessages.access messageStore
      = .ready
          { key := "messages"
            baseType := "message"
            isPolymorphic := true
            elements :=
              [ .loaded { identity := { type := "post", id := "1" }, ref := 201 },
                .loaded { identity := { type := "comment", id := "3" }, ref := 203 } ] }
    ∧ (linkedPostComments.access commentStore).adapterCalls = [] :=
  ⟨rfl, by decide,
    (no_redundant_fetch messageStore userMessages
      [{ type := "post", id := "1" }, { type := "comment", id := "3" }] rfl (by decide)).1,
    rfl,
    (no_redundant_fetch commentStore linkedPostComments [comment "1", comment "2"] rfl
      (by decide)).1⟩

/-! ## Helper lemmas: plain objects -/

theorem ownProperty_eq_none_iff (k : String) (l : List (String × Primitive)) :
    ownProperty k l = none ↔ k ∉ l.map Prod.fst := by
  induction l with
  | nil => simp [ownProperty]
  | cons p t ih =>
    obtain ⟨a, w⟩ := p
    by_cases hak : a = k
    · subst hak; simp [ownProperty]
    · have hka : ¬ k = a := fun e => hak e.symm
      simp [ownProperty, hak, hka, ih]

theorem replaceProp_keys (k : String) (v : Primitive) (l : List (String × Primitive)) :
    (replaceProp k v l).map Prod.fst = l.map Prod.fst := by
  induction l with
  | nil => rfl
  | cons p t ih =>
    obtain ⟨a, w⟩ := p
    by_cases hak : a = k <;> simp [replaceProp, hak, ih]

theorem insertIndexed_keys_perm (n : Nat) (k : String) (v : Primitive)
    (l : List (String × Primitive)) :
    ((insertIndexed n k v l).map Prod.fst).Perm (k :: l.map Prod.fst) := by
  induction l with
  | nil => exact List.Perm.refl _
  | cons p t ih =>
    obtain ⟨a, w⟩ := p
    unfold insertIndexed
    split
    · split
      · exact (List.Perm.cons a ih).trans (List.Perm.swap k a _)
      · exact List.Perm.refl _
    · exact List.Perm.refl _

theorem addProp_keys_perm (k : String) (v : Primitive) (l : List (String × Primitive)) :
    ((addProp k v l).map Prod.fst).Perm (k :: l.map Prod.fst) := by
  unfold addProp
  split
  · exact insertIndexed_keys_perm _ k v l
  · rw [List.map_append]
    exact List.perm_append_singleton k _

theorem assign_keys_nodup (o : PlainObject) (k : String) (v : Primitive)
    (h : (o.props.map Prod.fst).Nodup) : ((o.assign k v).props.map Prod.fst).Nodup := by
  unfold PlainObject.assign
  split
  · rw [replaceProp_keys]; exact h
  · rename_i hown
    have hk : k ∉ o.props.map Prod.fst := by
      rw [← ownProperty_eq_none_iff]
      cases hp : ownProperty k o.props with
      | none => rfl
      | some x => rw [hp] at hown; exact absurd rfl hown
    split
    · split <;> exact h
    · rw [(addProp_keys_perm k v o.props).nodup_iff]
      exact List.nodup_cons.mpr ⟨hk, h⟩

theorem extractFeaturesHash_keys_nodup (properties : List (String × ValueNode)) :
    ((extractFeaturesHash properties).props.map Prod.fst).Nodup := by
  have key : ∀ (ps : List (String × ValueNode)) (o : PlainObject),
      (o.props.map Prod.fst).Nodup →
      ((ps.foldl (fun defaults prop => defaults.assign prop.1 (castValue prop.2)) o).props.map
        Prod.fst).Nodup := by
    intro ps
    induction ps with
    | nil => intro o h; exact h
    | cons p rest ih =>
      intro o h
      rw [List.foldl_cons]
      exact ih _ (assign_keys_nodup _ _ _ h)
  exact key properties _ List.nodup_nil

theorem ownProperty_append_of_not_mem (k : String) (d r : List (String × Primitive))
    (h : k ∉ d.map Prod.fst) : ownProperty k (d ++ r) = ownProperty k r := by
  induction d with
  | nil => rfl
  | cons p t ih =>
    obtain ⟨a, w⟩ := p
    simp only [List.map_cons, List.mem_cons, not_or] at h
    have hak : ¬ a = k := fun e => h.1 e.symm
    simp only [List.cons_append, ownProperty, hak, if_false]
    exact ih h.2

theorem replaceProp_append_of_not_mem (k : String) (v : Primitive)
    (d r : List (String × Primitive)) (h : k ∉ d.map Prod.fst) :
    replaceProp k v (d ++ r) = d ++ replaceProp k v r := by
  induction d with
  | nil => rfl
  | cons p t ih =>
    obtain ⟨a, w⟩ := p
    simp only [List.map_cons, List.mem_cons, not_or] at h
    have hak : ¬ a = k := fun e => h.1 e.symm
    simp only [List.cons_append, replaceProp, hak, if_false]
    exact congrArg _ (ih h.2)

theorem enableAll_step (np : Bool) (k : String) (v : Primitive)
    (d t : List (String × Primitive)) (h : k ∉ d.map Prod.fst) :
    (match ownProperty k (d ++ (k, v) :: t) with
      | some .null =>
        PlainObject.assign { props := d ++ (k, v) :: t, nullPrototype := np } k (.boolean true)
      | _ => { props := d ++ (k, v) :: t, nullPrototype := np })
      = { props := (d ++ [(k, if v = .null then .boolean true else v)]) ++ t,
          nullPrototype := np } := by
  have hread : ownProperty k (d ++ (k, v) :: t) = some v := by
    rw [ownProperty_append_of_not_mem k d _ h]
    simp [ownProperty]
  rw [hread]
  by_cases hv : v = .null
  · subst hv
    simp [PlainObject.assign, hread, replaceProp_append_of_not_mem k _ d _ h, replaceProp]
  · cases v <;> simp_all

theorem enableAll_foldl (np : Bool) (todo : List (String × Primitive)) :
    ∀ d : List (String × Primitive),
      (∀ k ∈ todo.map Prod.fst, k ∉ d.map Prod.fst) →
      (todo.map Prod.fst).Nodup →
      (todo.map Prod.fst).foldl
          (fun (features : PlainObject) feature =>
            match ownProperty feature features.props with
            | some .null => features.assign feature (.boolean true)
            | _ => features)
          { props := d ++ todo, nullPrototype := np }
        = { props := d ++ todo.map (fun p => (p.1, if p.2 = .null then .boolean true else p.2)),
            nullPrototype := np } := by
  induction todo with
  | nil => intro d _ _; simp
  | cons p t ih =>
    obtain ⟨k, v⟩ := p
    intro d hd hnd
    simp only [List.map_cons, List.nodup_cons] at hnd
    have hk : k ∉ d.map Prod.fst := hd k (by simp)
    simp only [List.map_cons, List.foldl_cons]
    rw [enableAll_step np k v d t hk, ih (d ++ [(k, if v = .null then .boolean true else v)])]
    · simp
    · intro k2 hk2
      have h1 : k2 ∉ d.map Prod.fst := hd k2 (by simp [hk2])
      have h2 : k2 ≠ k := fun e => hnd.1 (e ▸ hk2)
      simp only [List.map_append, List.map_cons, List.map_nil, List.mem_append,
        List.mem_singleton, not_or]
      exact ⟨h1, h2⟩
    · exact hnd.2

theorem getFeatures_enableAll (properties : List (String × ValueNode)) :
    getFeatures properties (some "ENABLE_ALL_OPTIONAL")
      = { props := (extractFeaturesHash properties).props.map
            (fun p => (p.1, if p.2 = .null then .boolean true else p.2))
          nullPrototype := (extractFeaturesHash properties).nullPrototype } := by
  have h := enableAll_foldl (extractFeaturesHash properties).nullPrototype
    (extractFeaturesHash properties).props [] (by simp)
    (extractFeaturesHash_keys_nodup properties)
  simp only [List.nil_append] at h
  simp only [getFeatures, if_true]
  exact h

theorem ownProperty_map_enable (f : String) (l : List (String × Primitive)) :
    ownProperty f (l.map (fun p => (p.1, if p.2 = .null then .boolean true else p.2)))
      = (ownProperty f l).map (fun v => if v = .null then .boolean true else v) := by
  induction l with
  | nil => rfl
  | cons p t ih =>
    obtain ⟨a, w⟩ := p
    by_cases haf : a = f <;> simp [ownProperty, haf, ih]

/-! ## Feature flags -/

/-- C13: when the override is exactly `ENABLE_ALL_OPTIONAL`, the features returned by
`getFeatures` have exactly the own property names of the extracted defaults, in the
same order; and every feature `f` of the extracted defaults, with default `v`, is
`true` in the result when `v` is `null` and is `v` itself otherwise. -/
theorem getFeatures_enable_all_optional (properties : List (String × ValueNode))
    (f : String) (v : Primitive)
    (hf : ownProperty f (extractFeaturesHash properties).props = some v) :
    (getFeatures properties (some "ENABLE_ALL_OPTIONAL")).props.map Prod.fst
        = (extractFeaturesHash properties).props.map Prod.fst
    ∧ (v = .null →
        ownProperty f (getFeatures properties (some "ENABLE_ALL_OPTIONAL")).props
          = some (.boolean true))
    ∧ (v ≠ .null →
        ownProperty f (getFeatures properties (some "ENABLE_ALL_OPTIONAL")).props
          = some v) := by
  rw [getFeatures_enableAll]
  refine ⟨?_, ?_, ?_⟩
  · show ((extractFeaturesHash properties).props.map _).map Prod.fst = _
    rw [List.map_map]
    rfl
  · intro hv
    show ownProperty f ((extractFeaturesHash properties).props.map _) = _
    rw [ownProperty_map_enable, hf, hv]
    rfl
  · intro hv
    show ownProperty f ((extractFeaturesHash properties).props.map _) = _
    rw [ownProperty_map_enable, hf]
    simp [hv]

/-- C13 applied to the sample defaults, whose `SAMPLE_FEATURE_FLAG` is `null`: with
`ENABLE_ALL_OPTIONAL` it becomes `true`, the two other flags keep `false` and `true`. -/
theorem getFeatures_enable_all_optional_witness :
    ownProperty "SAMPLE_FEATURE_FLAG" (extractFeaturesHash sampleProperties).props = some .null
    ∧ ownProperty "SAMPLE_FEATURE_FLAG"
        (getFeatures sampleProperties (some "ENABLE_ALL_OPTIONAL")).props
      = some (.boolean true)
    ∧ getFeatures sampleProperties (some "ENABLE_ALL_OPTIONAL")
      = { props :=
            [ ("SAMPLE_FEATURE_FLAG", .boolean true),
              ("RECORD_DATA_ERRORS", .boolean false),
              ("RECORD_DATA_STATE", .boolean true) ]
          nullPrototype := false } :=
  ⟨by decide,
    (getFeatures_enable_all_optional sampleProperties "SAMPLE_FEATURE_FLAG" .null
      (by decide)).2.1 rfl,
    by decide⟩

/-- C14, evaluated at an explicit input: with the sample defaults and the override
`RECORD_DATA_ERRORS,__proto__`, the first listed name is enabled, but the second is
not: the assignment to `__proto__` creates no property, the result has no own property
of that name and is the very object returned for the override `RECORD_DATA_ERRORS`. -/
theorem getFeatures_proto_not_enabled :
    split "RECORD_DATA_ERRORS,__proto__" = ["RECORD_DATA_ERRORS", "__proto__"]
    ∧ getFeatures sampleProperties (some "RECORD_DATA_ERRORS,__proto__")
      = { props :=
            [ ("SAMPLE_FEATURE_FLAG", .null),
              ("RECORD_DATA_ERRORS", .boolean true),
              ("RECORD_DATA_STATE", .boolean true) ]
          nullPrototype := false }
    ∧ ownProperty "__proto__"
        (getFeatures sampleProperties (some "RECORD_DATA_ERRORS,__proto__")).props = none
    ∧ getFeatures sampleProperties (some "RECORD_DATA_ERRORS,__proto__")
      = getFeatures sampleProperties (some "RECORD_DATA_ERRORS") := by
  decide

/-! ## The accessor: set, then get -/

/-- C15 fails as stated: with an internal model whose `getHasMany` answers with a
counter and advances it, `set("comments", [1, 2])` returns 0 and the `get("comments")`
that follows at once returns 1. -/
theorem set_then_get_can_differ :
    (Descriptor.set true countingModel "comments" [1, 2]
        { constructorName := "Post", state := 0, calls := [] }).1 = .ok 0
    ∧ (Descriptor.get true countingModel "comments"
        (Descriptor.set true countingModel "comments" [1, 2]
          { constructorName := "Post", state := 0, calls := [] }).2).1 = .ok 1
    ∧ (Descriptor.get true countingModel "comments"
        (Descriptor.set true countingModel "comments" [1, 2]
          { constructorName := "Post", state := 0, calls := [] }).2).1
      ≠ (Descriptor.set true countingModel "comments" [1, 2]
          { constructorName := "Post", state := 0, calls := [] }).1 := by
  refine ⟨rfl, rfl, ?_⟩
  intro h
  have h2 : (Except.ok 1 : Except String Nat) = .ok 0 := h
  cases h2

/-- C15 as amended: for every record, either build and every field name `key` that is
not reserved, `set(key, records)` calls `setDirtyHasMany(key, records)` exactly once.
When that call returns normally, `set` then calls `getHasMany(key)` once on the state it
left and returns its result; when it throws, `set` ends with that error and
`getHasMany` is not called. A `get(key)` made right after the `set` returns what
`getHasMany(key)` gives on the state the `set` left behind. -/
theorem set_then_get {σ ρ α : Type} (DEBUG : Bool) (im : InternalModel σ ρ α)
    (key : String) (records : ρ) (record : Record σ ρ)
    (hkey : key ≠ "_internalModel" ∧ key ≠ "recordData" ∧ key ≠ "currentState") :
    (match (im.setDirtyHasMany key records record.state).1 with
      | .ok _ =>
        Descriptor.set DEBUG im key records record
          = ((im.getHasMany key (im.setDirtyHasMany key records record.state).2).1,
              { record with
                state := (im.getHasMany key (im.setDirtyHasMany key records record.state).2).2
                calls := record.calls ++ [.setDirtyHasMany key records, .getHasMany key] })
      | .error e =>
        Descriptor.set DEBUG im key records record
          = (.error e,
              { record with
                state := (im.setDirtyHasMany key records record.state).2
                calls := record.calls ++ [.setDirtyHasMany key records] }))
    ∧ (Descriptor.get DEBUG im key (Descriptor.set DEBUG im key records record).2).1
        = (im.getHasMany key (Descriptor.set DEBUG im key records record).2.state).1 := by
  have hk : key ∉ reservedNames := by
    rw [mem_reservedNames]; tauto
  have hg : ¬ (DEBUG && indexOf reservedNames key != -1) = true := by
    rw [guard_eq_true_iff]; exact fun h2 => hk h2.2
  refine ⟨?_, by rw [get_of_not_reserved DEBUG im key _ hk]⟩
  cases hset : (im.setDirtyHasMany key records record.state).1 with
  | ok u =>
    simp only [Descriptor.set, hg, if_false, hset]
    simp
  | error e =>
    simp only [Descriptor.set, hg, if_false, hset]
    simp

/-- C15 as amended, applied to a record of class `Post` with an empty relationship
table and `set("comments", [1, 2])`: the `set` returns `[1, 2]` after one
`setDirtyHasMany` and one `getHasMany`. -/
theorem set_then_get_witness :
    ("comments" ≠ "_internalModel" ∧ "comments" ≠ "recordData" ∧ "comments" ≠ "currentState")
    ∧ Descriptor.set true tableModel "comments" [1, 2]
        { constructorName := "Post", state := [], calls := [] }
      = (.ok [1, 2],
          { constructorName := "Post"
            state := [("comments", [1, 2])]
            calls := [.setDirtyHasMany "comments" [1, 2], .getHasMany "comments"] }) :=
  ⟨by decide,
    (set_then_get true tableModel "comments" [1, 2]
      { constructorName := "Post", state := [], calls := [] } (by decide)).1⟩

end EmberData
